import Mathlib

/-!
# Verification of the winpty unix-adapter (`src/unix-adapter/main.cc`)

A shallow embedding of the unix-adapter's core logic, with theorems checking
the natural-language specification against it.  C strings are embedded as
`List Char` (the characters before the terminating NUL), argument vectors as
`List (List Char)` or `List String`, and OS calls that can fail are embedded
as explicit parameters or `Except`/`Option` results.
-/

namespace WinptyAdapter

/-! ## Command-line codec: `argvToCommandLine` (main.cc lines 204-239)

The encoder is translated directly from the C++ source.  The inner loop keeps
a count `bsCount` of backslashes seen but not yet emitted; a quote flushes
them doubled plus an escaping backslash, an ordinary character flushes them
verbatim, and the end of a quoted argument flushes them doubled before the
closing quote. -/

/-- The body of `argvToCommandLine`'s per-argument loop, translated from the
source: `bsCount` is the pending run of backslashes, `quote` says whether the
argument is being wrapped in double quotes (the closing quote is emitted here;
the opening quote is emitted by the caller). -/
def escapeArgChars : List Char → Nat → Bool → List Char
  | [], bsCount, quote =>
      if quote then List.replicate (bsCount * 2) '\\' ++ ['"']
      else List.replicate bsCount '\\'
  | c :: rest, bsCount, quote =>
      if c = '\\' then
        escapeArgChars rest (bsCount + 1) quote
      else if c = '"' then
        List.replicate (bsCount * 2 + 1) '\\' ++ '"' :: escapeArgChars rest 0 quote
      else
        List.replicate bsCount '\\' ++ c :: escapeArgChars rest 0 quote

/-- Quoting condition `strchr(arg, ' ') || strchr(arg, '\t') || *arg == '\0'`: quote an argument
iff it contains a space or a tab or is empty (main.cc lines 211-214). -/
def needQuote (arg : List Char) : Bool :=
  arg.contains ' ' || arg.contains '\t' || arg.isEmpty

/-- Encoding of one argument: optional opening quote, then the escaped
characters (which include the closing quote when quoting). -/
def quoteArg (arg : List Char) : List Char :=
  (if needQuote arg then ['"'] else []) ++ escapeArgChars arg 0 (needQuote arg)

/-- Tail of `argvToCommandLine`, minus its first argument: each further argument is
preceded by a single space (main.cc lines 207-209). -/
def joinRest : List (List Char) → List Char
  | [] => []
  | a :: rest => ' ' :: (quoteArg a ++ joinRest rest)

/-- Translation of `argvToCommandLine` from main.cc lines 204-239: join the
escaped arguments with single spaces. -/
def argvToCommandLine : List (List Char) → List Char
  | [] => []
  | a :: rest => quoteArg a ++ joinRest rest

/-! ## The Win32 argument-splitting algorithm (decoder)

Modelled from the spec: "the target platform's own argument-splitting
algorithm", i.e. the `CommandLineToArgvW` de-quoting convention documented on
MSDN that the source's comment cites (main.cc lines 202-203).  It is not part
of this repository; it is the inverse the round-trip property is stated
against.  The state is: the remaining input, whether we are inside a quoted
span, the current token (`none` = no token started), and the pending run of
backslashes.  Rules: `2n` backslashes before a quote yield `n` backslashes
and toggle the quoted span; `2n+1` backslashes before a quote yield `n`
backslashes and a literal quote; backslashes not before a quote are literal;
space and tab outside a quoted span end the current token. -/

/-- Fold a pending run of backslashes into the current token at a point where
they are known to be literal (token separator or end of input). -/
def flushTok (cur : Option (List Char)) (bs : Nat) : Option (List Char) :=
  match cur, bs with
  | none, 0 => none
  | none, b => some (List.replicate b '\\')
  | some t, b => some (t ++ List.replicate b '\\')

/-- One left-to-right pass of the `CommandLineToArgvW` splitting algorithm
(modelled from the spec; see the section comment). -/
def decodeLoop : List Char → Bool → Option (List Char) → Nat → List (List Char)
  | [], _inQ, cur, bs =>
      (match flushTok cur bs with
       | none => []
       | some t => [t])
  | c :: rest, inQ, cur, bs =>
      if c = '\\' then
        decodeLoop rest inQ cur (bs + 1)
      else if c = '"' then
        if bs % 2 = 1 then
          decodeLoop rest inQ (some (cur.getD [] ++ List.replicate (bs / 2) '\\' ++ ['"'])) 0
        else
          decodeLoop rest (!inQ) (some (cur.getD [] ++ List.replicate (bs / 2) '\\')) 0
      else if !inQ && (c = ' ' || c = '\t') then
        (match flushTok cur bs with
         | none => decodeLoop rest false none 0
         | some t => t :: decodeLoop rest false none 0)
      else
        decodeLoop rest inQ (some (cur.getD [] ++ List.replicate bs '\\' ++ [c])) 0

/-- Split a full command line into its argument vector. -/
def commandLineToArgv (s : List Char) : List (List Char) :=
  decodeLoop s false none 0

/-! ## Spec-level encoder (for the refinement claim C2)

A second definition that follows the spec's words for `encode(argv)`:
"quote an argument if it contains a space, a tab, or is empty; within an
argument, a run of backslashes immediately followed by a quote character must
be doubled before the quote and the quote itself escaped; a run of
backslashes at the end of a quoted argument must be doubled; backslashes not
adjacent to a quote are copied literally."  Unlike the source encoder it
characterises each backslash by looking ahead to what follows its run. -/

/-- Whether a backslash whose run is followed by `rest` must be doubled: its
run is immediately followed by a quote character, or it sits at the end of a
quoted argument (`rest` is all backslashes and the argument is quoted). -/
def bsDoubled (quoted : Bool) (rest : List Char) : Bool :=
  match rest.dropWhile (fun c => c = '\\') with
  | [] => quoted
  | c :: _ => c = '"'

/-- Escape the characters of one argument following the spec's wording. -/
def escSpec (quoted : Bool) : List Char → List Char
  | [] => []
  | c :: rest =>
      if c = '\\' then
        List.replicate (if bsDoubled quoted rest then 2 else 1) '\\' ++ escSpec quoted rest
      else if c = '"' then
        '\\' :: '"' :: escSpec quoted rest
      else
        c :: escSpec quoted rest

/-- Spec-level encoding of one argument. -/
def quoteArgSpec (arg : List Char) : List Char :=
  if arg.contains ' ' || arg.contains '\t' || arg.isEmpty then
    '"' :: (escSpec true arg ++ ['"'])
  else
    escSpec false arg

/-- Spec-level `encode(argv)`: join the per-argument encodings with single
spaces. -/
def encodeSpec (argv : List (List Char)) : List Char :=
  match argv with
  | [] => []
  | a :: rest => quoteArgSpec a ++ (rest.map (fun b => ' ' :: quoteArgSpec b)).flatten

/-! ## Terminal mode controller (main.cc lines 67-153)

`termios` records are embedded as opaque attribute records; the raw-mode bit
twiddling writes a locally fetched and modified record to the terminal and
never touches the returned snapshot, so only the success/failure of those
`tcgetattr`/`tcsetattr` calls is tracked (a failure is `exit(1)` in the
source, embedded as `Except.error 1`).  The OS is a `TermEnv` parameter:
per-stream `isatty` answers, `tcgetattr` results (`none` = failure), and
`tcsetattr` success flags.  Uninitialized memory (the `mode[i]` slots of
streams that were never captured) is represented by the explicit `junk`
parameter. -/

/-- An opaque saved terminal-attribute record (`struct termios`). -/
structure Termios where
  rep : Nat
deriving DecidableEq

/-- Structure `SavedTermiosMode` (main.cc lines 67-71): per-stream validity flag plus
saved attributes, for stdin (0), stdout (1), stderr (2). -/
structure SavedTermiosMode where
  valid0 : Bool
  valid1 : Bool
  valid2 : Bool
  mode0 : Termios
  mode1 : Termios
  mode2 : Termios
deriving DecidableEq

/-- The per-stream validity flag, indexed 0 = stdin, 1 = stdout, 2 = stderr. -/
def SavedTermiosMode.validAt (s : SavedTermiosMode) : Nat → Bool
  | 0 => s.valid0
  | 1 => s.valid1
  | 2 => s.valid2
  | _ => false

/-- The OS-side terminal state the controller interacts with. -/
structure TermEnv where
  isatty0 : Bool
  isatty1 : Bool
  isatty2 : Bool
  getattr0 : Option Termios
  getattr1 : Option Termios
  getattr2 : Option Termios
  setattrOk0 : Bool
  setattrOk1 : Bool
  setattrOk2 : Bool
deriving DecidableEq

/-- Per-stream `isatty` answer, indexed 0 = stdin, 1 = stdout, 2 = stderr. -/
def TermEnv.isattyAt (e : TermEnv) : Nat → Bool
  | 0 => e.isatty0
  | 1 => e.isatty1
  | 2 => e.isatty2
  | _ => false

/-- The first loop of `setRawTerminalMode` (main.cc lines 84-101) for one
stream: unrequested streams stay invalid; a requested non-tty stream becomes
invalid, fatally if non-tty streams are disallowed; a requested tty stream
captures its attributes, fatally on `tcgetattr` failure. -/
def probeStream (isattyR : Bool) (getattr : Option Termios)
    (allowNonTtys requested : Bool) (junk : Termios) :
    Except Nat (Bool × Termios) :=
  if !requested then .ok (false, junk)
  else if !isattyR then
    if !allowNonTtys then .error 1 else .ok (false, junk)
  else
    match getattr with
    | none => .error 1
    | some m => .ok (true, m)

/-- The raw-mode configuration blocks of `setRawTerminalMode` (main.cc lines
103-137) for one stream: when the stream is valid, re-fetch its attributes
(fatal on failure), modify a local copy, and write it back (fatal on
failure).  The written record never reaches the returned snapshot, so only
the call outcomes are embedded. -/
def configStream (valid : Bool) (getattr : Option Termios) (setattrOk : Bool) :
    Except Nat Unit :=
  if !valid then .ok ()
  else
    match getattr with
    | none => .error 1
    | some _ => if !setattrOk then .error 1 else .ok ()

/-- Translation of `setRawTerminalMode` (main.cc lines 74-140): probe stdin (always
requested), stdout and stderr (as requested), then configure raw mode on each
valid stream; return the snapshot of original attributes. -/
def setRawTerminalMode (env : TermEnv) (junk : Termios)
    (allowNonTtys setStdout setStderr : Bool) :
    Except Nat SavedTermiosMode :=
  match probeStream env.isatty0 env.getattr0 allowNonTtys true junk with
  | .error e => .error e
  | .ok s0 =>
    match probeStream env.isatty1 env.getattr1 allowNonTtys setStdout junk with
    | .error e => .error e
    | .ok s1 =>
      match probeStream env.isatty2 env.getattr2 allowNonTtys setStderr junk with
      | .error e => .error e
      | .ok s2 =>
        match configStream s0.1 env.getattr0 env.setattrOk0 with
        | .error e => .error e
        | .ok _ =>
          match configStream s1.1 env.getattr1 env.setattrOk1 with
          | .error e => .error e
          | .ok _ =>
            match configStream s2.1 env.getattr2 env.setattrOk2 with
            | .error e => .error e
            | .ok _ => .ok ⟨s0.1, s1.1, s2.1, s0.2, s1.2, s2.2⟩

/-- Translation of `restoreTerminalMode` (main.cc lines 142-153) as the list of `tcsetattr`
calls it performs: stream index paired with the attribute record written,
skipping every stream whose validity flag is false. -/
def restoreTerminalMode (saved : SavedTermiosMode) : List (Nat × Termios) :=
  (if saved.valid0 then [(0, saved.mode0)] else [])
    ++ (if saved.valid1 then [(1, saved.mode1)] else [])
    ++ (if saved.valid2 then [(2, saved.mode2)] else [])

/-! ## Main loop resize handling (main.cc lines 601-624)

The cached geometry is the `winsize` structure `sz`; each iteration re-probes
into `sz2` and compares the two structures with `memcmp` over the whole
record (all four fields), updating the cache and calling
`winpty_set_size(wp, sz.ws_col, sz.ws_row, NULL)` on any difference. -/

/-- The `struct winsize` record: rows, columns, and the two pixel-size fields. -/
structure WinSize where
  ws_row : Nat
  ws_col : Nat
  ws_xpixel : Nat
  ws_ypixel : Nat
deriving DecidableEq

/-- One iteration's resize check (main.cc lines 608-616): compare the probed
geometry against the cache byte-for-byte; on a difference, the cache becomes
the probe and the back end is notified with `(columns, rows)`.  Returns the
new cache and the notification, if any. -/
def checkResize (sz sz2 : WinSize) : WinSize × Option (Nat × Nat) :=
  if sz2 = sz then (sz, none)
  else (sz2, some (sz2.ws_col, sz2.ws_row))

/-- The sequence of resize notifications sent to the back end across
successive main-loop iterations whose probes are `probes`, starting from
cached geometry `sz`. -/
def resizeNotifications : WinSize → List WinSize → List (Nat × Nat)
  | _, [] => []
  | sz, p :: ps =>
      match checkResize sz p with
      | (sz', none) => resizeNotifications sz' ps
      | (sz', some n) => n :: resizeNotifications sz' ps

/-! ## Shutdown sequence (main.cc lines 626-649) -/

/-- The observable steps of the shutdown sequence.  Worker/channel indices:
0 = input, 1 = output, 2 = error. -/
inductive ShutdownEvent where
  | freeBackend
  | shutdownWorker (i : Nat)
  | closeChannel (i : Nat)
  | restoreTerminal
  | queryExitCode
  | closeChild
deriving DecidableEq

/-- The shutdown sequence translated from main.cc lines 626-648:
`winpty_free`, then input/output handler shutdown, then `CloseHandle` on
conin/conout, then (when the error channel is enabled) error handler shutdown
and `CloseHandle` on conerr, then `restoreTerminalMode`, then
`GetExitCodeProcess`, then `CloseHandle` on the child handle. -/
def shutdownEvents (conerrEnabled : Bool) : List ShutdownEvent :=
  [.freeBackend, .shutdownWorker 0, .shutdownWorker 1, .closeChannel 0, .closeChannel 1]
    ++ (if conerrEnabled then [.shutdownWorker 2, .closeChannel 2] else [])
    ++ [.restoreTerminal, .queryExitCode, .closeChild]

/-- The tool's exit code (main.cc lines 644-649): the child's exit code as
reported by `GetExitCodeProcess`, or 1 if that query fails (`none`). -/
def mainExitCode (queryResult : Option Nat) : Nat :=
  match queryResult with
  | some code => code
  | none => 1

/-! ## Process entry: the `--child-exec` re-exec path (main.cc lines 476-486) -/

/-- The observable actions at the top of `main`. -/
inductive MainEvent where
  | execvpCall (prog : String) (argvTail : List String)
  | perrorExit (code : Nat)
  | createWakeup
  | parsePhase
  | sessionSetup
deriving DecidableEq

/-- The start of `main` translated from main.cc lines 480-486: when invoked
with at least three arguments and `--child-exec` as `argv[1]`, call
`execvp(argv[2], &argv[2])` immediately (replacing the process image when it
succeeds, never returning); if `execvp` fails, print an error and exit 1.
Otherwise fall through to the wakeup-primitive creation, argument parsing and
session setup. -/
def mainEntryEvents (argv : List String) (execOk : Bool) : List MainEvent :=
  match argv with
  | _a0 :: a1 :: a2 :: rest =>
      if a1 = "--child-exec" then
        if execOk then [.execvpCall a2 (a2 :: rest)]
        else [.execvpCall a2 (a2 :: rest), .perrorExit 1]
      else [.createWakeup, .parsePhase, .sessionSetup]
  | _ => [.createWakeup, .parsePhase, .sessionSetup]

/-! ## Argument parsing and usage (main.cc lines 354-427) -/

/-- Which standard stream an output line is written to. -/
inductive OutStream where
  | out
  | err
deriving DecidableEq

/-- A process exit: the lines written on the way out, and the exit code. -/
structure ProcExit where
  outputs : List (OutStream × String)
  code : Nat
deriving DecidableEq

/-- The `usage` text (main.cc lines 354-363): seven `printf` lines, all on
standard output. -/
def usageLines (program : String) : List (OutStream × String) :=
  [(.out, "Usage: " ++ program ++ " [options] [--] program [args]\n"),
   (.out, "\n"),
   (.out, "Options:\n"),
   (.out, "  -h, --help  Show this help message\n"),
   (.out, "  --mouse     Enable terminal mouse input\n"),
   (.out, "  --showkey   Dump STDIN escape sequences\n"),
   (.out, "  --version   Show the winpty version number\n")]

/-- Translation of `usage(program, exitCode)` (main.cc lines 354-364). -/
def usage (program : String) (exitCode : Nat) : ProcExit :=
  ⟨usageLines program, exitCode⟩

/-- The parsed `Arguments` structure (main.cc lines 366-373). -/
structure Arguments where
  childArgv : List String
  mouseInput : Bool
  testAllowNonTtys : Bool
  testConerr : Bool
  testPlainOutput : Bool
  testColorEscapes : Bool
deriving DecidableEq

/-- The outcome of `parseArguments`: return the parsed arguments, terminate
the process (usage, help, unknown option), print the version and exit 0, or
enter the standalone `--showkey` debug mode (which exits 0 after its own
terminal session). -/
inductive ParseResult where
  | ok (args : Arguments)
  | exit (e : ProcExit)
  | versionExit
  | showKey (allowNonTtys : Bool)
deriving DecidableEq

/-- The error line for an unrecognized option
(`"Error: unrecognized option: '%s'\n"` on standard error). -/
def unrecognizedMsg (arg : String) : String :=
  "Error: unrecognized option: " ++ String.singleton (Char.ofNat 39)
    ++ arg ++ String.singleton (Char.ofNat 39) ++ "\n"

/-- The tail of `parseArguments` (main.cc lines 420-427), after the remaining
arguments have been appended to `childArgv`: `--showkey` enters the debug
dumper and exits 0; an empty child argument vector prints the usage text and
exits 1. -/
def parseFinish (program : String) (acc : Arguments) (doShowKeys : Bool) :
    ParseResult :=
  if doShowKeys then .showKey acc.testAllowNonTtys
  else if acc.childArgv = [] then .exit (usage program 1)
  else .ok acc

/-- The option loop of `parseArguments` (main.cc lines 385-419), translated
clause by clause; on `--` or on the first non-option argument the loop breaks
and the remaining arguments are appended to `childArgv`. -/
def parseLoop (program : String) : List String → Arguments → Bool → ParseResult
  | [], acc, doShowKeys => parseFinish program acc doShowKeys
  | arg :: rest, acc, doShowKeys =>
      if arg.startsWith "-" then
        if arg = "-h" || arg = "--help" then .exit (usage program 0)
        else if arg = "--mouse" then
          parseLoop program rest { acc with mouseInput := true } doShowKeys
        else if arg = "--showkey" then parseLoop program rest acc true
        else if arg = "--version" then .versionExit
        else if arg = "-Xallow-non-tty" then
          parseLoop program rest { acc with testAllowNonTtys := true } doShowKeys
        else if arg = "-Xconerr" then
          parseLoop program rest { acc with testConerr := true } doShowKeys
        else if arg = "-Xplain" then
          parseLoop program rest { acc with testPlainOutput := true } doShowKeys
        else if arg = "-Xcolor" then
          parseLoop program rest { acc with testColorEscapes := true } doShowKeys
        else if arg = "--" then
          parseFinish program { acc with childArgv := acc.childArgv ++ rest } doShowKeys
        else .exit ⟨[(.err, unrecognizedMsg arg)], 1⟩
      else
        parseFinish program { acc with childArgv := (acc.childArgv ++ [arg]) ++ rest }
          doShowKeys

/-- Translation of `parseArguments(argc, argv, out)` (main.cc lines 375-427): `argv` is the
full vector including the program name. -/
def parseArguments (argv : List String) : ParseResult :=
  parseLoop (argv.headD "<program>") argv.tail
    ⟨[], false, false, false, false, false⟩ false

/-! ## Character-set conversion helpers (main.cc lines 255-295)

`mbstowcs`/`wcstombs` are locale-dependent C library calls; they are embedded
as a parameter mapping the destination capacity `maxLen` to `none` for a hard
conversion error (`(size_t)-1`) or `some s` for success writing `s`
(`s.length` is the call's return value; `s.length ≥ maxLen` means the output
was truncated and not NUL-terminated). -/

/-- A wide character. -/
abbrev WChar := Nat

/-- Translation of `heapMbsToWcs` (main.cc lines 255-265): allocate `strlen(text) * 2 + 1`
wide characters, convert, and `assert` that the conversion reported neither a
hard error nor truncation.  Returns (allocated length, converted text);
`none` as second component is the assertion firing. -/
def heapMbsToWcs (mbstowcs : List Char → Nat → Option (List WChar))
    (text : List Char) : Nat × Option (List WChar) :=
  let maxLen := text.length * 2 + 1
  (maxLen,
    match mbstowcs text maxLen with
    | none => none
    | some s => if s.length < maxLen then some s else none)

/-- Translation of `heapWcsToMbs` (main.cc lines 267-284): allocate `wcslen(text) * 3 + 1`
bytes, convert, and on a hard error or truncation free the buffer and return
`NULL` (`none`) rather than asserting. -/
def heapWcsToMbs (wcstombs : List WChar → Nat → Option (List Char))
    (text : List WChar) : Nat × Option (List Char) :=
  let maxLen := text.length * 3 + 1
  (maxLen,
    match wcstombs text maxLen with
    | none => none
    | some s => if s.length ≥ maxLen then none else some s)

/-- Translation of `wcsToMbs` (main.cc lines 286-295): wrap `heapWcsToMbs`, turning the
absent result into the empty string. -/
def wcsToMbs (wcstombs : List WChar → Nat → Option (List Char))
    (text : List WChar) : List Char :=
  match (heapWcsToMbs wcstombs text).2 with
  | none => []
  | some s => s

/-! ## Lemmas about the decoder -/

theorem decodeLoop_nil (inQ : Bool) (cur : Option (List Char)) (bs : Nat) :
    decodeLoop [] inQ cur bs
      = (match flushTok cur bs with
         | none => []
         | some t => [t]) := rfl

theorem decodeLoop_bs (rest : List Char) (inQ : Bool) (cur : Option (List Char))
    (bs : Nat) :
    decodeLoop ('\\' :: rest) inQ cur bs = decodeLoop rest inQ cur (bs + 1) := by
  simp [decodeLoop]

theorem decodeLoop_quote_odd (rest : List Char) (inQ : Bool)
    (cur : Option (List Char)) (bs : Nat) (h : bs % 2 = 1) :
    decodeLoop ('"' :: rest) inQ cur bs
      = decodeLoop rest inQ
          (some (cur.getD [] ++ List.replicate (bs / 2) '\\' ++ ['"'])) 0 := by
  simp [decodeLoop, h]

theorem decodeLoop_quote_even (rest : List Char) (inQ : Bool)
    (cur : Option (List Char)) (bs : Nat) (h : bs % 2 = 0) :
    decodeLoop ('"' :: rest) inQ cur bs
      = decodeLoop rest (!inQ)
          (some (cur.getD [] ++ List.replicate (bs / 2) '\\')) 0 := by
  simp [decodeLoop, h]

theorem decodeLoop_space (rest : List Char) (cur : Option (List Char)) (bs : Nat) :
    decodeLoop (' ' :: rest) false cur bs
      = (match flushTok cur bs with
         | none => decodeLoop rest false none 0
         | some t => t :: decodeLoop rest false none 0) := by
  simp [decodeLoop]

theorem decodeLoop_other (c : Char) (rest : List Char) (inQ : Bool)
    (cur : Option (List Char)) (bs : Nat)
    (hbs : c ≠ '\\') (hq : c ≠ '"')
    (hws : inQ = true ∨ (c ≠ ' ' ∧ c ≠ '\t')) :
    decodeLoop (c :: rest) inQ cur bs
      = decodeLoop rest inQ (some (cur.getD [] ++ List.replicate bs '\\' ++ [c])) 0 := by
  rcases hws with h | ⟨h1, h2⟩
  · subst h; simp [decodeLoop, hbs, hq]
  · simp [decodeLoop, hbs, hq, h1, h2]

theorem decodeLoop_replicate (k : Nat) (s : List Char) (inQ : Bool)
    (cur : Option (List Char)) (bs : Nat) :
    decodeLoop (List.replicate k '\\' ++ s) inQ cur bs
      = decodeLoop s inQ cur (bs + k) := by
  induction k generalizing bs with
  | zero => simp
  | succ n ih =>
      rw [List.replicate_succ, List.cons_append, decodeLoop_bs, ih]
      congr 1
      omega

/-- Decoding the encoder's output for the interior of a quoted argument:
starting inside the quoted span with token `cur` and a pending encoder run of
`ebs` source backslashes, the decoder ends the span having appended exactly
those backslashes and the remaining source characters. -/
theorem decode_escape_quoted (arg : List Char) :
    ∀ (ebs : Nat) (cur : List Char) (suffix : List Char),
    decodeLoop (escapeArgChars arg ebs true ++ suffix) true (some cur) 0
      = decodeLoop suffix false (some (cur ++ List.replicate ebs '\\' ++ arg)) 0 := by
  induction arg with
  | nil =>
      intro ebs cur suffix
      have he : escapeArgChars [] ebs true
          = List.replicate (ebs * 2) '\\' ++ ['"'] := by
        simp [escapeArgChars]
      rw [he, List.append_assoc, decodeLoop_replicate, List.singleton_append,
        decodeLoop_quote_even _ _ _ _ (by omega)]
      have hd : (0 + ebs * 2) / 2 = ebs := by omega
      simp [hd]
  | cons a rest ih =>
      intro ebs cur suffix
      by_cases ha : a = '\\'
      · subst ha
        have he : escapeArgChars ('\\' :: rest) ebs true
            = escapeArgChars rest (ebs + 1) true := by
          simp [escapeArgChars]
        rw [he, ih (ebs + 1) cur suffix]
        have : cur ++ List.replicate (ebs + 1) '\\' ++ rest
            = cur ++ List.replicate ebs '\\' ++ '\\' :: rest := by
          rw [List.replicate_succ']
          simp
        rw [this]
      · by_cases hq : a = '"'
        · subst hq
          have he : escapeArgChars ('"' :: rest) ebs true
              = List.replicate (ebs * 2 + 1) '\\'
                  ++ '"' :: escapeArgChars rest 0 true := by
            simp [escapeArgChars]
          rw [he, List.append_assoc, List.cons_append, decodeLoop_replicate,
            decodeLoop_quote_odd _ _ _ _ (by omega)]
          have hd : (0 + (ebs * 2 + 1)) / 2 = ebs := by omega
          rw [hd, ih 0 _ suffix]
          simp
        · have he : escapeArgChars (a :: rest) ebs true
              = List.replicate ebs '\\' ++ a :: escapeArgChars rest 0 true := by
            simp [escapeArgChars, ha, hq]
          rw [he, List.append_assoc, List.cons_append, decodeLoop_replicate,
            decodeLoop_other a _ _ _ _ ha hq (Or.inl rfl), ih 0 _ suffix]
          simp

/-- Decoding the encoder's output for an unquoted argument (no space or tab
in it): the decoder finishes the current token with the pending backslashes
and the argument's characters, either at the end of the command line or at a
separating space. -/
theorem decode_escape_unquoted (arg : List Char) :
    ∀ (ebs : Nat) (cur : Option (List Char)),
    ' ' ∉ arg → '\t' ∉ arg → (cur = none → ebs ≠ 0 ∨ arg ≠ []) →
    (decodeLoop (escapeArgChars arg ebs false) false cur 0
        = [cur.getD [] ++ List.replicate ebs '\\' ++ arg])
    ∧ (∀ suffix : List Char,
        decodeLoop (escapeArgChars arg ebs false ++ ' ' :: suffix) false cur 0
          = (cur.getD [] ++ List.replicate ebs '\\' ++ arg)
              :: decodeLoop suffix false none 0) := by
  induction arg with
  | nil =>
      intro ebs cur _ _ hguard
      have he : escapeArgChars [] ebs false = List.replicate ebs '\\' := by
        simp [escapeArgChars]
      have hflush : flushTok cur ebs
          = some (cur.getD [] ++ List.replicate ebs '\\') := by
        cases cur with
        | none =>
            rcases hguard rfl with h | h
            · cases ebs with
              | zero => exact absurd rfl h
              | succ n => simp [flushTok]
            · exact absurd rfl h
        | some t => rfl
      have hstep : decodeLoop (List.replicate ebs '\\') false cur 0
          = decodeLoop [] false cur (0 + ebs) := by
        have h := decodeLoop_replicate ebs [] false cur 0
        simpa using h
      constructor
      · rw [he, hstep, decodeLoop_nil]
        simp only [Nat.zero_add]
        rw [hflush]
        simp
      · intro suffix
        rw [he, decodeLoop_replicate, decodeLoop_space]
        simp only [Nat.zero_add]
        rw [hflush]
        simp
  | cons a rest ih =>
      intro ebs cur hsp htab hguard
      have hsp' : ' ' ∉ rest := fun h => hsp (List.mem_cons_of_mem _ h)
      have htab' : '\t' ∉ rest := fun h => htab (List.mem_cons_of_mem _ h)
      have hasp : a ≠ ' ' := fun h => hsp (h ▸ List.mem_cons_self a rest)
      have hatab : a ≠ '\t' := fun h => htab (h ▸ List.mem_cons_self a rest)
      by_cases ha : a = '\\'
      · subst ha
        have he : escapeArgChars ('\\' :: rest) ebs false
            = escapeArgChars rest (ebs + 1) false := by
          simp [escapeArgChars]
        have hrw : ∀ cur0 : Option (List Char),
            cur0.getD [] ++ List.replicate (ebs + 1) '\\' ++ rest
              = cur0.getD [] ++ List.replicate ebs '\\' ++ '\\' :: rest := by
          intro cur0
          rw [List.replicate_succ']
          simp
        obtain ⟨h1, h2⟩ := ih (ebs + 1) cur hsp' htab' (fun _ => Or.inl (by omega))
        refine ⟨?_, fun suffix => ?_⟩
        · rw [he, h1, hrw]
        · rw [he, h2, hrw]
      · by_cases hq : a = '"'
        · subst hq
          have he : escapeArgChars ('"' :: rest) ebs false
              = List.replicate (ebs * 2 + 1) '\\'
                  ++ '"' :: escapeArgChars rest 0 false := by
            simp [escapeArgChars]
          have hd : (0 + (ebs * 2 + 1)) / 2 = ebs := by omega
          obtain ⟨h1, h2⟩ := ih 0
            (some (cur.getD [] ++ List.replicate ebs '\\' ++ ['"']))
            hsp' htab' (by simp)
          refine ⟨?_, fun suffix => ?_⟩
          · rw [he, decodeLoop_replicate, decodeLoop_quote_odd _ _ _ _ (by omega),
              hd, h1]
            simp
          · rw [he, List.append_assoc, List.cons_append, decodeLoop_replicate,
              decodeLoop_quote_odd _ _ _ _ (by omega), hd, h2]
            simp
        · have he : escapeArgChars (a :: rest) ebs false
              = List.replicate ebs '\\' ++ a :: escapeArgChars rest 0 false := by
            simp [escapeArgChars, ha, hq]
          obtain ⟨h1, h2⟩ := ih 0
            (some (cur.getD [] ++ List.replicate ebs '\\' ++ [a]))
            hsp' htab' (by simp)
          refine ⟨?_, fun suffix => ?_⟩
          · rw [he, decodeLoop_replicate,
              decodeLoop_other a _ _ _ _ ha hq (Or.inr ⟨hasp, hatab⟩)]
            simp only [Nat.zero_add]
            rw [h1]
            simp
          · rw [he, List.append_assoc, List.cons_append, decodeLoop_replicate,
              decodeLoop_other a _ _ _ _ ha hq (Or.inr ⟨hasp, hatab⟩)]
            simp only [Nat.zero_add]
            rw [h2]
            simp

/-- Decoding the joined tail of the command line with a finished token `t` in
hand emits `t` and continues with the remaining arguments. -/
theorem decode_joinRest (rest : List (List Char)) (t : List Char) :
    decodeLoop (joinRest rest) false (some t) 0
      = t :: decodeLoop (argvToCommandLine rest) false none 0 := by
  cases rest with
  | nil => simp [joinRest, argvToCommandLine, decodeLoop_nil, flushTok]
  | cons b rs =>
      rw [joinRest, decodeLoop_space]
      simp [flushTok, argvToCommandLine]

/-- Unpacking `needQuote arg = false`. -/
theorem needQuote_eq_false (arg : List Char) (h : needQuote arg = false) :
    ' ' ∉ arg ∧ '\t' ∉ arg ∧ arg ≠ [] := by
  simp only [needQuote, Bool.or_eq_false_iff] at h
  obtain ⟨⟨h1, h2⟩, h3⟩ := h
  exact ⟨by simpa using h1, by simpa using h2, by simpa using h3⟩

/-- C1: decoding the string produced by `argvToCommandLine` with the Win32
`CommandLineToArgvW` argument-splitting algorithm reproduces the original
argument vector element-for-element, for every argument vector (elements may
contain spaces, tabs, embedded double quotes, and runs of backslashes). -/
theorem argvToCommandLine_roundtrip (argv : List (List Char)) :
    commandLineToArgv (argvToCommandLine argv) = argv := by
  induction argv with
  | nil => rfl
  | cons a rest ih =>
      show decodeLoop (argvToCommandLine (a :: rest)) false none 0 = a :: rest
      rw [show argvToCommandLine (a :: rest) = quoteArg a ++ joinRest rest from rfl]
      by_cases hq : needQuote a = true
      · have hqa : quoteArg a = '"' :: escapeArgChars a 0 true := by
          simp [quoteArg, hq]
        rw [hqa, List.cons_append, decodeLoop_quote_even _ _ _ _ (by omega)]
        simp only [Option.getD_none, Nat.zero_div, List.replicate_zero,
          List.append_nil, Bool.not_false]
        rw [decode_escape_quoted a 0 [] (joinRest rest)]
        simp only [List.replicate_zero, List.append_nil, List.nil_append]
        rw [decode_joinRest rest a]
        exact congrArg (a :: ·) ih
      · have hfalse : needQuote a = false := by simpa using hq
        obtain ⟨h1, h2, h3⟩ := needQuote_eq_false a hfalse
        have hqa : quoteArg a = escapeArgChars a 0 false := by
          simp [quoteArg, hfalse]
        cases rest with
        | nil =>
            rw [show joinRest [] = [] from rfl, List.append_nil, hqa,
              (decode_escape_unquoted a 0 none h1 h2 (fun _ => Or.inr h3)).1]
            simp
        | cons b rs =>
            rw [show joinRest (b :: rs) = ' ' :: (quoteArg b ++ joinRest rs) from rfl,
              hqa,
              (decode_escape_unquoted a 0 none h1 h2 (fun _ => Or.inr h3)).2
                (quoteArg b ++ joinRest rs)]
            simp only [Option.getD_none, List.replicate_zero, List.nil_append,
              List.append_nil]
            exact congrArg (a :: ·) ih

/-! ## Lemmas relating the source encoder and the spec-level encoder -/

/-- A pending run of `ebs` backslashes in the source encoder flushes to `ebs`
or `2 * ebs` emitted backslashes according to whether the spec says the run
is adjacent to a quote. -/
theorem escapeArgChars_pending (arg : List Char) :
    ∀ (ebs : Nat) (q : Bool),
    escapeArgChars arg ebs q
      = List.replicate ((if bsDoubled q arg then 2 else 1) * ebs) '\\'
          ++ escapeArgChars arg 0 q := by
  induction arg with
  | nil =>
      intro ebs q
      cases q with
      | false => simp [escapeArgChars, bsDoubled]
      | true =>
          simp only [escapeArgChars, if_pos rfl, bsDoubled, List.dropWhile_nil]
          rw [show ebs * 2 = 2 * ebs from by ring]
          simp
  | cons a rest ih =>
      intro ebs q
      by_cases ha : a = '\\'
      · subst ha
        have hd : bsDoubled q ('\\' :: rest) = bsDoubled q rest := by
          simp [bsDoubled, List.dropWhile_cons]
        have he : escapeArgChars ('\\' :: rest) ebs q
            = escapeArgChars rest (ebs + 1) q := by
          simp [escapeArgChars]
        have he0 : escapeArgChars ('\\' :: rest) 0 q
            = escapeArgChars rest 1 q := by
          simp [escapeArgChars]
        rw [he, he0, ih (ebs + 1) q, ih 1 q, hd]
        cases hb : bsDoubled q rest <;>
          simp only [if_pos rfl, if_neg, Bool.false_eq_true, not_false_iff] <;>
          rw [← List.append_assoc, ← List.replicate_add] <;>
          congr 2 <;> ring
      · by_cases hquo : a = '"'
        · subst hquo
          have hd : bsDoubled q ('"' :: rest) = true := by
            simp [bsDoubled, List.dropWhile_cons]
          have he : ∀ k, escapeArgChars ('"' :: rest) k q
              = List.replicate (k * 2 + 1) '\\' ++ '"' :: escapeArgChars rest 0 q := by
            intro k
            simp [escapeArgChars]
          rw [he ebs, he 0, hd, if_pos rfl, ← List.append_assoc, ← List.replicate_add]
          congr 2
          ring
        · have hd : bsDoubled q (a :: rest) = false := by
            simp [bsDoubled, List.dropWhile_cons, ha, hquo]
          have he : ∀ k, escapeArgChars (a :: rest) k q
              = List.replicate k '\\' ++ a :: escapeArgChars rest 0 q := by
            intro k
            simp [escapeArgChars, ha, hquo]
          rw [he ebs, he 0, hd, if_neg (by simp)]
          simp

/-- The source encoder's per-argument loop emits exactly the spec-level
escaping, followed by the closing quote when quoting. -/
theorem escapeArgChars_eq_escSpec (arg : List Char) :
    ∀ q : Bool,
    escapeArgChars arg 0 q = escSpec q arg ++ (if q then ['"'] else []) := by
  induction arg with
  | nil =>
      intro q
      cases q <;> simp [escapeArgChars, escSpec]
  | cons a rest ih =>
      intro q
      by_cases ha : a = '\\'
      · subst ha
        have he : escapeArgChars ('\\' :: rest) 0 q = escapeArgChars rest 1 q := by
          simp [escapeArgChars]
        have hs : escSpec q ('\\' :: rest)
            = List.replicate (if bsDoubled q rest then 2 else 1) '\\'
                ++ escSpec q rest := by
          simp [escSpec]
        rw [he, escapeArgChars_pending rest 1 q, ih q, hs]
        simp [List.append_assoc]
      · by_cases hquo : a = '"'
        · subst hquo
          have he : escapeArgChars ('"' :: rest) 0 q
              = List.replicate 1 '\\' ++ '"' :: escapeArgChars rest 0 q := by
            simp [escapeArgChars]
          rw [he, ih q]
          simp [escSpec]
        · have he : escapeArgChars (a :: rest) 0 q
              = List.replicate 0 '\\' ++ a :: escapeArgChars rest 0 q := by
            simp [escapeArgChars, ha, hquo]
          rw [he, ih q]
          simp [escSpec, ha, hquo]

/-- Per-argument agreement of the two encoders. -/
theorem quoteArg_eq_quoteArgSpec (arg : List Char) :
    quoteArg arg = quoteArgSpec arg := by
  rw [quoteArg, quoteArgSpec,
    show (arg.contains ' ' || arg.contains '\t' || arg.isEmpty) = needQuote arg
      from rfl]
  cases hq : needQuote arg <;>
    simp [escapeArgChars_eq_escSpec arg, hq]

/-- C2: `argvToCommandLine` equals the spec-level encoder: arguments joined
with single spaces; an argument is wrapped in double quotes exactly when it
contains a space, contains a tab, or is empty; a run of backslashes
immediately followed by a double-quote character is doubled and the quote
escaped with one extra backslash; a run of backslashes at the end of a quoted
argument is doubled before the closing quote; backslashes not adjacent to a
quote are copied literally. -/
theorem argvToCommandLine_eq_encodeSpec (argv : List (List Char)) :
    argvToCommandLine argv = encodeSpec argv := by
  cases argv with
  | nil => rfl
  | cons a rest =>
      rw [show argvToCommandLine (a :: rest) = quoteArg a ++ joinRest rest from rfl,
        encodeSpec, quoteArg_eq_quoteArgSpec]
      congr 1
      induction rest with
      | nil => rfl
      | cons b rs ihr =>
          rw [show joinRest (b :: rs) = ' ' :: (quoteArg b ++ joinRest rs) from rfl,
            quoteArg_eq_quoteArgSpec, ihr]
          simp

/-! ## Theorems about the other components -/

/-- A probe of a stream that is not a tty never marks the stream valid. -/
theorem probeStream_ok_not_tty (getattr : Option Termios) (allow req : Bool)
    (junk : Termios) (s : Bool × Termios)
    (h : probeStream false getattr allow req junk = .ok s) : s.1 = false := by
  cases req <;> cases allow <;> simp_all [probeStream] <;> rw [← h]

/-- C3: the tool's exit code equals the child process's exit code as reported
by the process-handle query (`GetExitCodeProcess`), and is 1 when that query
fails. -/
theorem mainExitCode_spec :
    (∀ code : Nat, mainExitCode (some code) = code) ∧ mainExitCode none = 1 :=
  ⟨fun _ => rfl, rfl⟩

/-- C4: invoked with `--child-exec` as its first argument followed by at
least one more argument, the tool immediately calls `execvp` on the named
program with the remaining arguments, before and instead of all other logic
(no wakeup-primitive creation, argument parsing, or session setup); if the
replacement fails it prints an error and exits with code 1. -/
theorem childExec_bypasses_everything (a0 a2 : String) (rest : List String) :
    mainEntryEvents (a0 :: "--child-exec" :: a2 :: rest) true
        = [.execvpCall a2 (a2 :: rest)]
    ∧ mainEntryEvents (a0 :: "--child-exec" :: a2 :: rest) false
        = [.execvpCall a2 (a2 :: rest), .perrorExit 1] := by
  constructor <;> simp [mainEntryEvents]

/-- C5: in every shutdown, the back-end session object is freed strictly
before each raw channel handle is closed, and the terminal-mode restore
happens strictly after each active I/O pump worker's shutdown. -/
theorem shutdown_ordering (conerrEnabled : Bool) (i : Nat) :
    (ShutdownEvent.closeChannel i ∈ shutdownEvents conerrEnabled →
      (shutdownEvents conerrEnabled).indexOf ShutdownEvent.freeBackend
        < (shutdownEvents conerrEnabled).indexOf (ShutdownEvent.closeChannel i))
    ∧ (ShutdownEvent.shutdownWorker i ∈ shutdownEvents conerrEnabled →
      (shutdownEvents conerrEnabled).indexOf (ShutdownEvent.shutdownWorker i)
        < (shutdownEvents conerrEnabled).indexOf ShutdownEvent.restoreTerminal) := by
  cases conerrEnabled <;> constructor <;> intro hm <;>
    simp [shutdownEvents] at hm <;>
    rcases hm with rfl | rfl | rfl <;> decide

theorem shutdown_ordering_witness :
    (shutdownEvents true).indexOf ShutdownEvent.freeBackend
      < (shutdownEvents true).indexOf (ShutdownEvent.closeChannel 2) :=
  (shutdown_ordering true 2).1 (by decide)

/-- C6: for probed geometries (80,25), (80,25), (120,40), (120,40) the back
end receives exactly one resize notification, carrying (120,40); in general
a resize is forwarded in an iteration iff the re-probed geometry differs from
the cached one, the notification carries the probe's (columns, rows), and the
cache ends up equal to the probe. -/
theorem resize_propagation :
    resizeNotifications ⟨25, 80, 0, 0⟩
        [⟨25, 80, 0, 0⟩, ⟨25, 80, 0, 0⟩, ⟨40, 120, 0, 0⟩, ⟨40, 120, 0, 0⟩]
      = [(120, 40)]
    ∧ ∀ sz sz2 : WinSize,
        checkResize sz sz2
          = (sz2, if sz2 = sz then none else some (sz2.ws_col, sz2.ws_row)) := by
  refine ⟨by decide, fun sz sz2 => ?_⟩
  by_cases h : sz2 = sz
  · subst h
    simp [checkResize]
  · simp [checkResize, h]

/-- C10: the resize comparison is over the whole `winsize` structure, so a
probe differing from the cache only in the pixel-size fields still triggers
a notification, and the notification carries only the unchanged
(columns, rows) pair. -/
theorem resize_pixel_only_change (sz sz2 : WinSize)
    (hc : sz2.ws_col = sz.ws_col) (hr : sz2.ws_row = sz.ws_row)
    (hne : sz2 ≠ sz) :
    checkResize sz sz2 = (sz2, some (sz.ws_col, sz.ws_row)) := by
  simp [checkResize, hne, hc, hr]

theorem resize_pixel_only_change_witness :
    checkResize ⟨25, 80, 0, 0⟩ ⟨25, 80, 640, 480⟩
      = (⟨25, 80, 640, 480⟩, some (80, 25)) :=
  resize_pixel_only_change _ _ rfl rfl (by decide)

/-- C7: restoration reapplies saved attributes exactly to streams whose
validity flag is true (a stream whose flag is false is never restored), and
a stream skipped at capture time because it was not a terminal is recorded
as not valid in the snapshot returned by `setRawTerminalMode`. -/
theorem terminalMode_valid_flags :
    (∀ (saved : SavedTermiosMode) (i : Nat) (m : Termios),
        (i, m) ∈ restoreTerminalMode saved → saved.validAt i = true)
    ∧ (∀ (env : TermEnv) (junk : Termios)
         (allowNonTtys setStdout setStderr : Bool)
         (ret : SavedTermiosMode) (i : Nat),
        setRawTerminalMode env junk allowNonTtys setStdout setStderr = .ok ret →
        env.isattyAt i = false → ret.validAt i = false) := by
  constructor
  · intro saved i m hm
    simp only [restoreTerminalMode, List.mem_append] at hm
    rcases hm with (hm | hm) | hm
    · by_cases h : saved.valid0
      · simp only [if_pos h, List.mem_singleton, Prod.mk.injEq] at hm
        rcases hm with ⟨rfl, -⟩
        simpa [SavedTermiosMode.validAt] using h
      · simp [h] at hm
    · by_cases h : saved.valid1
      · simp only [if_pos h, List.mem_singleton, Prod.mk.injEq] at hm
        rcases hm with ⟨rfl, -⟩
        simpa [SavedTermiosMode.validAt] using h
      · simp [h] at hm
    · by_cases h : saved.valid2
      · simp only [if_pos h, List.mem_singleton, Prod.mk.injEq] at hm
        rcases hm with ⟨rfl, -⟩
        simpa [SavedTermiosMode.validAt] using h
      · simp [h] at hm
  · intro env junk allow so se ret i hret htty
    simp only [setRawTerminalMode] at hret
    cases hp0 : probeStream env.isatty0 env.getattr0 allow true junk with
    | error e => simp [hp0] at hret
    | ok s0 =>
    simp only [hp0] at hret
    cases hp1 : probeStream env.isatty1 env.getattr1 allow so junk with
    | error e => simp [hp1] at hret
    | ok s1 =>
    simp only [hp1] at hret
    cases hp2 : probeStream env.isatty2 env.getattr2 allow se junk with
    | error e => simp [hp2] at hret
    | ok s2 =>
    simp only [hp2] at hret
    cases hc0 : configStream s0.1 env.getattr0 env.setattrOk0 with
    | error e => simp [hc0] at hret
    | ok u0 =>
    simp only [hc0] at hret
    cases hc1 : configStream s1.1 env.getattr1 env.setattrOk1 with
    | error e => simp [hc1] at hret
    | ok u1 =>
    simp only [hc1] at hret
    cases hc2 : configStream s2.1 env.getattr2 env.setattrOk2 with
    | error e => simp [hc2] at hret
    | ok u2 =>
    simp only [hc2, Except.ok.injEq] at hret
    subst hret
    rcases i with _ | _ | _ | i
    · simp only [TermEnv.isattyAt] at htty
      rw [htty] at hp0
      simpa [SavedTermiosMode.validAt] using
        probeStream_ok_not_tty env.getattr0 allow true junk s0 hp0
    · simp only [TermEnv.isattyAt] at htty
      rw [htty] at hp1
      simpa [SavedTermiosMode.validAt] using
        probeStream_ok_not_tty env.getattr1 allow so junk s1 hp1
    · simp only [TermEnv.isattyAt] at htty
      rw [htty] at hp2
      simpa [SavedTermiosMode.validAt] using
        probeStream_ok_not_tty env.getattr2 allow se junk s2 hp2
    · simp [SavedTermiosMode.validAt]

theorem terminalMode_valid_flags_witness :
    SavedTermiosMode.validAt ⟨true, false, false, ⟨10⟩, ⟨0⟩, ⟨0⟩⟩ 0 = true
    ∧ SavedTermiosMode.validAt ⟨true, false, false, ⟨10⟩, ⟨0⟩, ⟨0⟩⟩ 1 = false :=
  ⟨terminalMode_valid_flags.1 ⟨true, false, false, ⟨10⟩, ⟨0⟩, ⟨0⟩⟩ 0 ⟨10⟩ (by decide),
   terminalMode_valid_flags.2
     ⟨true, false, true, some ⟨10⟩, some ⟨11⟩, some ⟨12⟩, true, true, true⟩
     ⟨0⟩ true true false ⟨true, false, false, ⟨10⟩, ⟨0⟩, ⟨0⟩⟩ 1 (by rfl) (by rfl)⟩

/-- C8 counterexample: invoking the tool with no arguments prints the usage
text entirely on standard output — nothing is written to standard error —
while exiting with code 1, so the claim that the usage text goes to standard
error is false. -/
theorem usage_not_on_stderr :
    parseArguments ["winpty"] = .exit ⟨usageLines "winpty", 1⟩
    ∧ (usageLines "winpty").all (fun o => o.1 == OutStream.out) = true
    ∧ usageLines "winpty" ≠ [] :=
  ⟨rfl, rfl, fun h => List.noConfusion h⟩

/-- C8 (amended): invoking the tool with no arguments (no options and no
child program) prints the usage text on standard output and exits with
code 1. -/
theorem usage_on_stdout (program : String) :
    parseArguments [program] = .exit (usage program 1)
    ∧ (usage program 1).outputs.all (fun o => o.1 == OutStream.out) = true
    ∧ (usage program 1).code = 1 :=
  ⟨rfl, rfl, rfl⟩

/-- C9: narrow-to-wide conversion allocates twice the input byte length plus
one and asserts the conversion reported neither a hard error nor truncation;
wide-to-narrow conversion allocates three times the input code-unit length
plus one and reports error or truncation by an absent result, which the
string wrapper turns into the empty string. -/
theorem conversion_helpers_spec
    (mbstowcsF : List Char → Nat → Option (List WChar))
    (wcstombsF : List WChar → Nat → Option (List Char))
    (text : List Char) (wtext : List WChar) :
    (heapMbsToWcs mbstowcsF text).1 = text.length * 2 + 1
    ∧ ((heapMbsToWcs mbstowcsF text).2 = none ↔
        mbstowcsF text (text.length * 2 + 1) = none
          ∨ ∃ s, mbstowcsF text (text.length * 2 + 1) = some s
              ∧ text.length * 2 + 1 ≤ s.length)
    ∧ (heapWcsToMbs wcstombsF wtext).1 = wtext.length * 3 + 1
    ∧ ((heapWcsToMbs wcstombsF wtext).2 = none ↔
        wcstombsF wtext (wtext.length * 3 + 1) = none
          ∨ ∃ s, wcstombsF wtext (wtext.length * 3 + 1) = some s
              ∧ wtext.length * 3 + 1 ≤ s.length)
    ∧ wcsToMbs wcstombsF wtext = ((heapWcsToMbs wcstombsF wtext).2).getD [] := by
  refine ⟨rfl, ?_, rfl, ?_, ?_⟩
  · cases hf : mbstowcsF text (text.length * 2 + 1) with
    | none => simp [heapMbsToWcs, hf]
    | some s =>
        by_cases h : s.length < text.length * 2 + 1 <;>
          simp [heapMbsToWcs, hf, h] <;> omega
  · cases hg : wcstombsF wtext (wtext.length * 3 + 1) with
    | none => simp [heapWcsToMbs, hg]
    | some s =>
        by_cases h : wtext.length * 3 + 1 ≤ s.length <;>
          simp [heapWcsToMbs, hg, h]
  · cases hg : (heapWcsToMbs wcstombsF wtext).2 <;> simp [wcsToMbs, hg]

end WinptyAdapter
